import Mathlib

/-
Verification of the sync core of the copilot-session-sync extension.

The TypeScript sources are shallowly embedded: pure functions become Lean
functions, collaborator calls (filesystem, GitHub API, Node crypto) become
explicit function parameters, JavaScript objects become structures, and
`Map`/`Record` values become association lists.  Timestamps (epoch
milliseconds from `Date.now()`) are modelled as `Int`, byte buffers as
`List Nat`.
-/

namespace CopilotSync

/-- Byte sequences (Node `Buffer` values).  Base64 transport encoding of
buffers is a bijection and is elided: payload fields hold the raw bytes. -/
abbrev ByteSeq := List Nat

/-! ## Data model (src/types.ts) -/

/-- `CopilotSession` from types.ts (the fields used by the sync core). -/
structure CopilotSession where
  id : String
  workspaceId : String
  workspacePath : String
  fileExtension : String
  rawContent : String
  customTitle : String
  creationDate : Int
  lastMessageDate : Int
deriving DecidableEq, Repr

/-- `SyncManifestEntry` from types.ts. -/
structure SyncManifestEntry where
  sessionId : String
  workspaceId : String
  workspacePath : String
  fileExtension : String
  customTitle : String
  lastMessageDate : Int
  creationDate : Int
  sha : String
  deviceId : String
  updatedAt : Int
deriving DecidableEq, Repr

/-- `SyncManifest` from types.ts; the `entries` record keyed by sessionId is
modelled as an association list. -/
structure SyncManifest where
  version : Nat
  deviceId : String
  lastSyncTimestamp : Int
  entries : List (String × SyncManifestEntry)
deriving DecidableEq, Repr

/-! ## Conflict resolver (conflictResolver.ts) -/

/-- The five `ConflictAction` tags.  The human-readable `reason` strings the
code attaches are log messages only and are not modelled. -/
inductive ConflictAction where
  | push
  | pull
  | skip
  | newLocal
  | newRemote
deriving DecidableEq, Repr

/-- JavaScript truthiness of the guard `localContentHash && localContentHash
=== remote.sha`: an `undefined` or empty-string hash is falsy. -/
def hashMatches (h : Option String) (sha : String) : Bool :=
  match h with
  | none => false
  | some s => s != "" && s == sha

/-- JavaScript truthiness of the guard `localContentHash && localContentHash
!== remote.sha`. -/
def hashDiffers (h : Option String) (sha : String) : Bool :=
  match h with
  | none => false
  | some s => s != "" && s != sha

/-- `ConflictResolver.resolve` (conflictResolver.ts lines 25-94), a pure
decision function over (local session, remote manifest entry, local content
hash). -/
def resolve (localS : Option CopilotSession) (remote : Option SyncManifestEntry)
    (localContentHash : Option String) : ConflictAction :=
  match localS, remote with
  | some _, none => .newLocal
  | none, some _ => .newRemote
  | none, none => .skip
  | some l, some r =>
    if hashMatches localContentHash r.sha then .skip
    else if l.lastMessageDate > r.lastMessageDate then .push
    else if r.lastMessageDate > l.lastMessageDate then .pull
    else if hashDiffers localContentHash r.sha then .push
    else .skip

/-- The rule table of spec section 4.4, read literally: rule 3a fires
whenever the supplied hash equals `remote.sha`, with no truthiness proviso
on the hash.  Used to compare the code against the spec's words. -/
def specRuleTable (localS : Option CopilotSession) (remote : Option SyncManifestEntry)
    (localContentHash : Option String) : ConflictAction :=
  match localS, remote with
  | some _, none => .newLocal
  | none, some _ => .newRemote
  | none, none => .skip
  | some l, some r =>
    if localContentHash = some r.sha then .skip
    else if l.lastMessageDate > r.lastMessageDate then .push
    else if r.lastMessageDate > l.lastMessageDate then .pull
    else if localContentHash.isSome then .push
    else .skip

/-- The rule table amended to match the code's truthiness handling: the
hash-equality rule 3a and the tie-break rule 3d apply only when the supplied
hash is non-empty; an empty-string hash behaves as if no hash were
supplied. -/
def specRuleTableAmended (localS : Option CopilotSession) (remote : Option SyncManifestEntry)
    (localContentHash : Option String) : ConflictAction :=
  match localS, remote with
  | some _, none => .newLocal
  | none, some _ => .newRemote
  | none, none => .skip
  | some l, some r =>
    if localContentHash ≠ none ∧ localContentHash ≠ some "" ∧ localContentHash = some r.sha then
      .skip
    else if l.lastMessageDate > r.lastMessageDate then .push
    else if r.lastMessageDate > l.lastMessageDate then .pull
    else if localContentHash ≠ none ∧ localContentHash ≠ some "" ∧ localContentHash ≠ some r.sha then
      .push
    else .skip

/-! ## Crypto engine (src/encryption.ts)

The Node `crypto` library is the external collaborator: PBKDF2 key
derivation and the AES-256-GCM cipher become function parameters bundled in
`NodeCrypto`.  GCM is encrypt-then-authenticate: the keystream layer maps
plaintext to ciphertext and back, and the auth-tag layer computes a 16-byte
tag over the ciphertext which `decipher.final()` checks.  The laws the
library documents are stated separately in `LawfulCrypto` and
`IdealAuthTag`. -/

/-- The Node crypto primitives used by encryption.ts. -/
structure NodeCrypto where
  pbkdf2Sha512 : String → ByteSeq → ByteSeq
  gcmKeystreamEnc : ByteSeq → ByteSeq → String → ByteSeq
  gcmKeystreamDec : ByteSeq → ByteSeq → ByteSeq → String
  gcmAuthTag : ByteSeq → ByteSeq → ByteSeq → ByteSeq

/-- The documented contract of the library: GCM decryption inverts
encryption under the same key and IV, and auth tags are 16 bytes
(`AUTH_TAG_LENGTH`). -/
structure LawfulCrypto (lib : NodeCrypto) : Prop where
  dec_enc : ∀ key iv data, lib.gcmKeystreamDec key iv (lib.gcmKeystreamEnc key iv data) = data
  tag_len : ∀ key iv c, (lib.gcmAuthTag key iv c).length = 16

/-- Idealisation of GCM unforgeability: under a fixed key and IV, distinct
ciphertexts have distinct auth tags.  (For the real 128-bit tag this holds
only computationally; bytes are modelled as unbounded naturals so the ideal
form is satisfiable.) -/
def IdealAuthTag (lib : NodeCrypto) : Prop :=
  ∀ key iv c c', lib.gcmAuthTag key iv c = lib.gcmAuthTag key iv c' → c = c'

/-- `EncryptedPayload` from types.ts.  The base64 wrapping of the three
buffer fields is elided; fields hold the raw bytes. -/
structure EncryptedPayload where
  salt : ByteSeq
  iv : ByteSeq
  /-- ciphertext concatenated with the 16-byte auth tag -/
  ciphertext : ByteSeq
  version : Nat
deriving DecidableEq, Repr

/-- The failure modes of `Encryption.decrypt`: the generic
unsupported-version error (`Unsupported encryption version: v`), the
generic invalid-tag-length error that `decipher.setAuthTag` raises outside
the try/catch when the recovered tag is not 16 bytes (a version-1 payload
whose ciphertext field is shorter than the tag length), and the distinct
DecryptionFailed error (`Decryption failed — wrong passphrase or corrupted
data.`) produced by the catch around `decipher.update`/`final`. -/
inductive DecryptError where
  | unsupportedVersion (v : Nat)
  | invalidTagLength (n : Nat)
  | decryptionFailed
deriving DecidableEq, Repr

namespace Encryption

/-- `AUTH_TAG_LENGTH` (encryption.ts line 19). -/
def AUTH_TAG_LENGTH : Nat := 16

/-- `CURRENT_VERSION` (encryption.ts line 20). -/
def CURRENT_VERSION : Nat := 1

/-- `Encryption.deriveKey` (encryption.ts lines 25-33). -/
def deriveKey (lib : NodeCrypto) (passphrase : String) (salt : ByteSeq) : ByteSeq :=
  lib.pbkdf2Sha512 passphrase salt

/-- `Encryption.encrypt` (encryption.ts lines 42-67).  The two
`crypto.randomBytes` draws are externalised as the `salt` and `iv`
arguments. -/
def encrypt (lib : NodeCrypto) (data passphrase : String) (salt iv : ByteSeq) :
    EncryptedPayload :=
  let key := deriveKey lib passphrase salt
  let encrypted := lib.gcmKeystreamEnc key iv data
  let authTag := lib.gcmAuthTag key iv encrypted
  { salt := salt
    iv := iv
    ciphertext := encrypted ++ authTag
    version := CURRENT_VERSION }

/-- `Encryption.decrypt` (encryption.ts lines 77-106): version check, split
of ciphertext and auth tag, key derivation, `decipher.setAuthTag` — which
sits outside the try/catch and raises a generic invalid-tag-length error
when the recovered tag is not `AUTH_TAG_LENGTH` bytes (possible only when
the ciphertext field is shorter than 16 bytes) — and the GCM tag check
whose failure is caught and rethrown as the DecryptionFailed error. -/
def decrypt (lib : NodeCrypto) (payload : EncryptedPayload) (passphrase : String) :
    Except DecryptError String :=
  if payload.version ≠ CURRENT_VERSION then
    .error (.unsupportedVersion payload.version)
  else
    let ciphertext := payload.ciphertext.take (payload.ciphertext.length - AUTH_TAG_LENGTH)
    let authTag := payload.ciphertext.drop (payload.ciphertext.length - AUTH_TAG_LENGTH)
    let key := deriveKey lib passphrase payload.salt
    if authTag.length ≠ AUTH_TAG_LENGTH then
      .error (.invalidTagLength authTag.length)
    else if lib.gcmAuthTag key payload.iv ciphertext = authTag then
      .ok (lib.gcmKeystreamDec key payload.iv ciphertext)
    else
      .error .decryptionFailed

/-- The GCM authentication check performed inside `decrypt` on a
version-supported payload. -/
def authTagOk (lib : NodeCrypto) (payload : EncryptedPayload) (passphrase : String) : Prop :=
  lib.gcmAuthTag (deriveKey lib passphrase payload.salt) payload.iv
      (payload.ciphertext.take (payload.ciphertext.length - AUTH_TAG_LENGTH))
    = payload.ciphertext.drop (payload.ciphertext.length - AUTH_TAG_LENGTH)

instance (lib : NodeCrypto) (payload : EncryptedPayload) (passphrase : String) :
    Decidable (authTagOk lib payload passphrase) := by
  unfold authTagOk
  infer_instance

end Encryption

/-- Modelled from the spec: the `CachedEncryptor` returned by
`Encryption.createCachedEncryptor`, which syncEngine.ts imports from
encryption.ts but whose class body is absent from the provided sources
(only its callers and tests are).  Per spec section 4.1 it derives the key
from a single fresh salt once and reuses it for multiple encryptions, each
with a fresh random IV. -/
structure CachedEncryptor where
  salt : ByteSeq
  key : ByteSeq

/-- Modelled from the spec: `Encryption.createCachedEncryptor(passphrase)`
derives the key once via PBKDF2 from one fresh salt (externalised as the
`salt` argument). -/
def createCachedEncryptor (lib : NodeCrypto) (passphrase : String) (salt : ByteSeq) :
    CachedEncryptor :=
  { salt := salt, key := Encryption.deriveKey lib passphrase salt }

/-- Modelled from the spec: `CachedEncryptor.encrypt(data)` encrypts with
the cached key and a fresh random IV (externalised), carrying the cached
salt in the payload so the standard `decrypt` can re-derive the key. -/
def CachedEncryptor.encrypt (lib : NodeCrypto) (ce : CachedEncryptor) (data : String)
    (iv : ByteSeq) : EncryptedPayload :=
  let encrypted := lib.gcmKeystreamEnc ce.key iv data
  let authTag := lib.gcmAuthTag ce.key iv encrypted
  { salt := ce.salt
    iv := iv
    ciphertext := encrypted ++ authTag
    version := Encryption.CURRENT_VERSION }

/-! ### Concrete reference instantiation of the crypto collaborator

Used by the witnesses: the keystream layer is the identity on character
codes and the tag layer is an injective encoding of the ciphertext padded
to 16 bytes. -/

/-- UTF-8-style byte view of a string: the list of character codes. -/
def strToBytes (s : String) : ByteSeq := s.toList.map Char.toNat

/-- Inverse of `strToBytes`. -/
def bytesToStr (b : ByteSeq) : String := ⟨b.map Char.ofNat⟩

/-- A concrete `NodeCrypto` satisfying the library laws, used to witness
the conditional crypto theorems. -/
def refCrypto : NodeCrypto where
  pbkdf2Sha512 := fun pass salt => strToBytes pass ++ salt
  gcmKeystreamEnc := fun _ _ data => strToBytes data
  gcmKeystreamDec := fun _ _ c => bytesToStr c
  gcmAuthTag := fun _ _ c => Encodable.encode c :: List.replicate 15 0

/-! ## Metadata scanner (sessionReader, src/unnamed/part_001) -/

/-- `SessionMetadata` (part_001 lines 13-28). -/
structure SessionMetadata where
  id : String
  workspaceId : String
  workspacePath : String
  fileExtension : String
  mtimeMs : Int
  sizeBytes : Int
  filePath : String
  customTitle : String
  creationDate : Int
  lastMessageDate : Int
deriving DecidableEq, Repr

/-- The display-field record produced by minimal metadata extraction. -/
structure MinimalMeta where
  customTitle : String
  creationDate : Int
  lastMessageDate : Int
deriving DecidableEq, Repr

/-- The `defaults` record of `extractMinimalMetadata` (part_001 line 579). -/
def metaDefaults : MinimalMeta :=
  { customTitle := "Untitled Session", creationDate := 0, lastMessageDate := 0 }

/-- `SessionReader.extractMinimalMetadata` (part_001 lines 575-618).  The
file read and first-record JSON parse are externalised: `parsed` is `none`
when the parse fails or the first record is not a header (the `catch`
branch), and otherwise carries the three optional header fields, each
defaulted when absent (the `?? defaults.x` fallbacks). -/
def extractMinimalMetadata (parsed : Option (Option String × Option Int × Option Int)) :
    MinimalMeta :=
  match parsed with
  | none => metaDefaults
  | some (t, c, l) =>
    { customTitle := t.getD metaDefaults.customTitle
      creationDate := c.getD metaDefaults.creationDate
      lastMessageDate := l.getD metaDefaults.lastMessageDate }

/-- Milliseconds per day, as in `maxAgeDays * 24 * 60 * 60 * 1000`. -/
def msPerDay : Int := 24 * 60 * 60 * 1000

/-- `SessionReader.readRecentSessionMetadata` (part_001 lines 396-403):
`Date.now()` is externalised as `now` and the result of
`readAllSessionMetadata` as `all`; the function is the age filter. -/
def readRecentSessionMetadata (now : Int) (maxAgeDays : Int)
    (all : List SessionMetadata) : List SessionMetadata :=
  let cutoff := now - maxAgeDays * msPerDay
  all.filter (fun m => decide (m.lastMessageDate ≥ cutoff))

/-! ## Hash cache (syncEngine.ts lines 749-782) -/

/-- `CachedHashEntry` (syncEngine.ts lines 692-702). -/
structure CachedHashEntry where
  hash : String
  mtimeMs : Int
  sizeBytes : Int
deriving DecidableEq, Repr

/-- The hash cache `Record<string, CachedHashEntry>`, as an association
list. -/
abbrev HashCache := List (String × CachedHashEntry)

/-- JS property assignment `hashCache[id] = entry`, modelled as a shadowing
insert observed through `List.lookup`. -/
def HashCache.store (cache : HashCache) (id : String) (e : CachedHashEntry) : HashCache :=
  (id, e) :: cache

/-- Result record of `getContentHash`. -/
structure HashResult where
  hash : String
  needsRead : Bool
deriving DecidableEq, Repr

/-- The read-and-hash tail of `getContentHash` (syncEngine.ts lines
773-781), shared by the cache-miss and stale-fingerprint branches: the
guard `if (!content)` treats both a failed read and an empty file as
absent, returning an empty hash without touching the cache; otherwise the
content is hashed and the cache updated under the session id. -/
def getContentHashFresh (readSessionContent : String → String → Option String)
    (hashContent : String → String)
    (meta : SessionMetadata) (hashCache : HashCache) : HashResult × HashCache :=
  match readSessionContent meta.workspaceId meta.id with
  | none => ({ hash := "", needsRead := false }, hashCache)
  | some content =>
    if content = "" then ({ hash := "", needsRead := false }, hashCache)
    else
      let hash := hashContent content
      ({ hash := hash, needsRead := true },
        hashCache.store meta.id
          { hash := hash, mtimeMs := meta.mtimeMs, sizeBytes := meta.sizeBytes })

/-- `SyncEngine.getContentHash` (syncEngine.ts lines 763-782).  The content
source (`sessionReader.readSessionContent`) and the SHA-256 function
(`Encryption.hashContent`) are collaborator parameters; the in-place cache
mutation becomes the returned cache. -/
def getContentHash (readSessionContent : String → String → Option String)
    (hashContent : String → String)
    (meta : SessionMetadata) (hashCache : HashCache) : HashResult × HashCache :=
  match hashCache.lookup meta.id with
  | some cached =>
    if cached.mtimeMs = meta.mtimeMs ∧ cached.sizeBytes = meta.sizeBytes then
      ({ hash := cached.hash, needsRead := false }, hashCache)
    else
      getContentHashFresh readSessionContent hashContent meta hashCache
  | none => getContentHashFresh readSessionContent hashContent meta hashCache

/-! ## resolveAll and the sync phases (conflictResolver.ts, syncEngine.ts) -/

/-- Insertion-ordered de-duplication, as iterating `new Set([...])` does. -/
def insertionDedup (l : List String) : List String :=
  l.foldl (fun acc a => if a ∈ acc then acc else acc ++ [a]) []

/-- `ConflictResolver.resolveAll` (conflictResolver.ts lines 103-122):
resolve every id present on either side. -/
def resolveAll (localSessions : List (String × CopilotSession))
    (remoteEntries : List (String × SyncManifestEntry))
    (localHashes : List (String × String)) : List (String × ConflictAction) :=
  let allIds := insertionDedup (localSessions.map Prod.fst ++ remoteEntries.map Prod.fst)
  allIds.map (fun id =>
    (id, resolve (localSessions.lookup id) (remoteEntries.lookup id) (localHashes.lookup id)))

/-- `SyncEngine.getRemoteManifest` (syncEngine.ts lines 1396-1413).  The
fetched `manifest.json` file is modelled by the encrypted payload it
decodes to, and `JSON.parse` of the decrypted text by the collaborator
`parseManifest`; a missing passphrase, a missing file, a decryption
failure, or a parse failure all yield `none` (the `catch` branch logs and
returns null). -/
def getRemoteManifest (lib : NodeCrypto) (parseManifest : String → Option SyncManifest)
    (passphrase : Option String) (manifestFile : Option EncryptedPayload) :
    Option SyncManifest :=
  match passphrase with
  | none => none
  | some pass =>
    match manifestFile with
    | none => none
    | some content =>
      match Encryption.decrypt lib content pass with
      | .ok decrypted => parseManifest decrypted
      | .error _ => none

/-- The pull-action selection of `SyncEngine.pullFromRemote` (syncEngine.ts
lines 1053-1129), reduced to the ids it pulls: with no open workspace or no
readable manifest nothing is pulled; otherwise every id resolved to pull or
new-remote is pulled. -/
def pullFromRemote (currentWsId : Option String) (manifest : Option SyncManifest)
    (localMap : List (String × CopilotSession)) (localHashes : List (String × String)) :
    List String :=
  match currentWsId with
  | none => []
  | some _ =>
    match manifest with
    | none => []
    | some m =>
      ((resolveAll localMap m.entries localHashes).filter (fun p =>
        match p.2 with
        | .pull => true
        | .newRemote => true
        | _ => false)).map Prod.fst

/-! ## Push staging (syncEngine.ts lines 1185-1392) -/

/-- One file staged for commit: `{ path, content }`. -/
structure StagedFile where
  path : String
  content : String
deriving DecidableEq, Repr

/-- Remote session object path `sessions/<id>.enc`. -/
def sessionFilePath (sessionId : String) : String :=
  "sessions/" ++ sessionId ++ ".enc"

/-- `ConflictResolver.backupPath` (conflictResolver.ts lines 127-130), with
`Date.now()` externalised as `now`. -/
def backupPath (sessionId : String) (now : Int) : String :=
  "sessions/backups/" ++ sessionId ++ ".backup-" ++ toString now ++ ".enc"

/-- The fresh manifest created when no remote manifest is readable
(syncEngine.ts lines 1215-1221). -/
def emptyManifest (deviceId : String) (now : Int) : SyncManifest :=
  { version := 1, deviceId := deviceId, lastSyncTimestamp := now, entries := [] }

/-- Manifest selection at the start of a push (syncEngine.ts lines
1213-1222). -/
def pushManifestBase (manifest : Option SyncManifest) (deviceId : String) (now : Int) :
    SyncManifest :=
  match manifest with
  | none => emptyManifest deviceId now
  | some m => m

/-- One entry of the `toPush` work list (syncEngine.ts lines 1260-1269). -/
structure PushItem where
  sessionId : String
  meta : SessionMetadata
  hash : String
  action : ConflictAction
deriving DecidableEq, Repr

/-- Selection of sessions needing a push (syncEngine.ts lines 1260-1269):
every resolved push or new-local action whose metadata and hash are
available. -/
def selectToPush (metadata : List SessionMetadata) (localHashes : List (String × String))
    (actions : List (String × ConflictAction)) : List PushItem :=
  actions.filterMap (fun p =>
    match p.2 with
    | .push | .newLocal =>
      match metadata.find? (fun m => m.id == p.1), localHashes.lookup p.1 with
      | some meta, some hash =>
        some { sessionId := p.1, meta := meta, hash := hash, action := p.2 }
      | _, _ => none
    | _ => none)

/-- The manifest entry written for a pushed session (syncEngine.ts lines
1334-1345). -/
def newManifestEntry (sessionId : String) (meta : SessionMetadata) (hash deviceId : String)
    (now : Int) : SyncManifestEntry :=
  { sessionId := sessionId
    workspaceId := meta.workspaceId
    workspacePath := meta.workspacePath
    fileExtension := meta.fileExtension
    customTitle := meta.customTitle
    lastMessageDate := meta.lastMessageDate
    creationDate := meta.creationDate
    sha := hash
    deviceId := deviceId
    updatedAt := now }

/-- JS object assignment `manifest.entries[id] = entry`: replace in place if
the key exists, else append. -/
def updateEntries (entries : List (String × SyncManifestEntry)) (id : String)
    (e : SyncManifestEntry) : List (String × SyncManifestEntry) :=
  if entries.any (fun p => p.1 == id) then
    entries.map (fun p => if p.1 == id then (id, e) else p)
  else entries ++ [(id, e)]

/-- Accumulator of the push loop: the staged session files, the staged
backup files, and the manifest entries under update. -/
structure PushLoopState where
  filesToPush : List StagedFile
  backupFiles : List StagedFile
  entries : List (String × SyncManifestEntry)
deriving DecidableEq, Repr

/-- One iteration of the push loop (syncEngine.ts lines 1286-1346): lazy
content read — the guard `if (!rawContent) continue` skips the item on a
missing *or empty* read, both falsy — payload encryption via the cached
encryptor (`encryptPayload meta rawContent` stands for
`encryptor.encryptToString(JSON.stringify(payload))`), best-effort backup
staging when a push overwrites an entry present in the remote map
(`remoteGet` is `githubRepo.getFileContent`, read at staging time — before
anything is written — and staged only when truthy, i.e. present and
non-empty), staging of the session object, and the manifest-entry
update. -/
def pushLoopStep (readSessionContent : String → String → Option String)
    (encryptPayload : SessionMetadata → String → String)
    (remoteGet : String → Option String)
    (remoteMap : List (String × SyncManifestEntry))
    (deviceId : String) (now : Int)
    (st : PushLoopState) (item : PushItem) : PushLoopState :=
  match readSessionContent item.meta.workspaceId item.sessionId with
  | none => st
  | some rawContent =>
    if rawContent = "" then st
    else
      let encrypted := encryptPayload item.meta rawContent
      let backups :=
        if item.action = ConflictAction.push ∧ (remoteMap.lookup item.sessionId).isSome then
          match remoteGet (sessionFilePath item.sessionId) with
          | some existingContent =>
            if existingContent = "" then st.backupFiles
            else st.backupFiles ++ [⟨backupPath item.sessionId now, existingContent⟩]
          | none => st.backupFiles
        else st.backupFiles
      { filesToPush := st.filesToPush ++ [⟨sessionFilePath item.sessionId, encrypted⟩]
        backupFiles := backups
        entries := updateEntries st.entries item.sessionId
          (newManifestEntry item.sessionId item.meta item.hash deviceId now) }

/-- The whole push loop over the `toPush` work list. -/
def pushLoop (readSessionContent : String → String → Option String)
    (encryptPayload : SessionMetadata → String → String)
    (remoteGet : String → Option String)
    (remoteMap : List (String × SyncManifestEntry))
    (deviceId : String) (now : Int)
    (toPush : List PushItem) (entries : List (String × SyncManifestEntry)) : PushLoopState :=
  toPush.foldl (pushLoopStep readSessionContent encryptPayload remoteGet remoteMap deviceId now)
    { filesToPush := [], backupFiles := [], entries := entries }

/-- The outcome of the staging computation of a push. -/
structure PushPlan where
  toPush : List PushItem
  manifest : SyncManifest
  files : List StagedFile
  backups : List StagedFile
deriving DecidableEq, Repr

/-- The staging computation of `SyncEngine.pushToRemote` (syncEngine.ts
lines 1185-1392).  `metadata` is the recent, size-filtered local scan
result, `localMap` and `localHashes` the maps built from it, `manifest`
the `getRemoteManifest` result; `Date.now()` is `now`.  The early returns
(no metadata, nothing to push, no file staged) yield `none`; otherwise the
plan holds the staged file list in commit order — session objects, then
the encrypted manifest, then the backups (lines 1353-1364) — which
`batchCommit` receives and which the sequential fallback writes in
order. -/
def pushToRemote (readSessionContent : String → String → Option String)
    (encryptPayload : SessionMetadata → String → String)
    (encryptManifest : SyncManifest → String)
    (remoteGet : String → Option String)
    (manifest : Option SyncManifest) (deviceId : String) (now : Int)
    (metadata : List SessionMetadata)
    (localMap : List (String × CopilotSession))
    (localHashes : List (String × String)) : Option PushPlan :=
  if metadata.isEmpty then none
  else
    let base := pushManifestBase manifest deviceId now
    let actions := resolveAll localMap base.entries localHashes
    let toPush := selectToPush metadata localHashes actions
    if toPush.isEmpty then none
    else
      let st := pushLoop readSessionContent encryptPayload remoteGet base.entries
        deviceId now toPush base.entries
      if st.filesToPush.isEmpty then none
      else
        let manifestFinal : SyncManifest :=
          { base with entries := st.entries, lastSyncTimestamp := now, deviceId := deviceId }
        some { toPush := toPush
               manifest := manifestFinal
               files := st.filesToPush ++ [⟨"manifest.json", encryptManifest manifestFinal⟩]
                 ++ st.backupFiles
               backups := st.backupFiles }

/-! ## Remote store semantics (githubRepo.ts) -/

/-- Remote repository contents: path to file content. -/
abbrev RepoFiles := List (String × String)

/-- Create-or-update of a single path: replace the entry if the path
exists, else append it. -/
def RepoFiles.put : RepoFiles → String → String → RepoFiles
  | [], path, content => [(path, content)]
  | p :: rest, path, content =>
    if p.1 == path then (path, content) :: rest
    else p :: RepoFiles.put rest path content

/-- Removal of a single path. -/
def RepoFiles.remove (s : RepoFiles) (path : String) : RepoFiles :=
  s.filter (fun p => p.1 != path)

/-- Net effect of `GitHubRepo.putFile` (githubRepo.ts lines 205-225) on the
repository contents: one contents-API PUT creating or updating the file. -/
def putFile (s : RepoFiles) (path content : String) : RepoFiles :=
  RepoFiles.put s path content

/-- Net effect of `GitHubRepo.batchCommit` (githubRepo.ts lines 256-353) on
the repository contents: a single commit whose tree overlays every file
entry, in order, over the base tree and removes every deletion path. -/
def batchCommit (s : RepoFiles) (files : List StagedFile) (deletePaths : List String) :
    RepoFiles :=
  let overlaid := files.foldl (fun acc f => RepoFiles.put acc f.path f.content) s
  deletePaths.foldl (fun acc p => RepoFiles.remove acc p) overlaid

/-- The sequential-put fallback (syncEngine.ts lines 1380-1388): every
staged file written individually via `putFile`, in staging order. -/
def sequentialPuts (s : RepoFiles) (files : List StagedFile) : RepoFiles :=
  files.foldl (fun acc f => putFile acc f.path f.content) s

/-- The backup files a single push-loop iteration stages: a proof view of
the backup branch of `pushLoopStep`, used to reason about the loop as a
whole, with the same falsy guards on the re-read content and the fetched
remote content. -/
def stepBackups (readSessionContent : String → String → Option String)
    (remoteGet : String → Option String)
    (remoteMap : List (String × SyncManifestEntry)) (now : Int)
    (item : PushItem) : List StagedFile :=
  match readSessionContent item.meta.workspaceId item.sessionId with
  | none => []
  | some rawContent =>
    if rawContent = "" then []
    else if item.action = ConflictAction.push ∧ (remoteMap.lookup item.sessionId).isSome then
      match remoteGet (sessionFilePath item.sessionId) with
      | some existingContent =>
        if existingContent = "" then []
        else [⟨backupPath item.sessionId now, existingContent⟩]
      | none => []
    else []

/-- The session files a single push-loop iteration stages: a proof view of
the staging branch of `pushLoopStep`, with the same falsy guard on the
re-read content. -/
def stepFiles (readSessionContent : String → String → Option String)
    (encryptPayload : SessionMetadata → String → String) (item : PushItem) :
    List StagedFile :=
  match readSessionContent item.meta.workspaceId item.sessionId with
  | none => []
  | some rawContent =>
    if rawContent = "" then []
    else [⟨sessionFilePath item.sessionId, encryptPayload item.meta rawContent⟩]

/-- The work-list selector of a single resolved action (the body of the
`selectToPush` filterMap). -/
def selectItem (metadata : List SessionMetadata) (localHashes : List (String × String))
    (p : String × ConflictAction) : Option PushItem :=
  match p.2 with
  | .push | .newLocal =>
    match metadata.find? (fun m => m.id == p.1), localHashes.lookup p.1 with
    | some meta, some hash =>
      some { sessionId := p.1, meta := meta, hash := hash, action := p.2 }
    | _, _ => none
  | _ => none

/-- A sample local session used in concrete counterexamples. -/
def sampleSession : CopilotSession :=
  { id := "session-1"
    workspaceId := "ws-1"
    workspacePath := "/home/user/project"
    fileExtension := ".jsonl"
    rawContent := ""
    customTitle := "Test Session"
    creationDate := 1000
    lastMessageDate := 2000 }

/-- A sample remote manifest entry used in concrete counterexamples. -/
def sampleEntry : SyncManifestEntry :=
  { sessionId := "session-1"
    workspaceId := "ws-1"
    workspacePath := "/home/user/project"
    fileExtension := ".jsonl"
    customTitle := "Test Session"
    lastMessageDate := 1000
    creationDate := 1000
    sha := ""
    deviceId := "device-1"
    updatedAt := 3000 }

/-- Sample metadata for session `s1`, used in concrete witnesses. -/
def cexSessionMeta : SessionMetadata :=
  { id := "s1"
    workspaceId := "ws-1"
    workspacePath := "/home/user/project"
    fileExtension := ".jsonl"
    mtimeMs := 5
    sizeBytes := 10
    filePath := "/chatSessions/s1.jsonl"
    customTitle := "T"
    creationDate := 1000
    lastMessageDate := 2000 }

/-- Metadata whose header record carried no dates at all: the extraction
defaults leave both timestamps at 0, while the file itself was created
recently (creation time 8640000000 ms, day 100). -/
def cexNoActivityMeta : SessionMetadata :=
  { id := "s0"
    workspaceId := "ws-1"
    workspacePath := "/home/user/project"
    fileExtension := ".jsonl"
    mtimeMs := 8640000000
    sizeBytes := 10
    filePath := "/chatSessions/s0.jsonl"
    customTitle := "Untitled Session"
    creationDate := 8640000000
    lastMessageDate := 0 }

/-- A local session for `s1`, newer than the remote entry. -/
def cexLocalSession : CopilotSession :=
  { id := "s1"
    workspaceId := "ws-1"
    workspacePath := "/home/user/project"
    fileExtension := ".jsonl"
    rawContent := ""
    customTitle := "T"
    creationDate := 1000
    lastMessageDate := 2000 }

/-- A remote manifest entry for `s1`, older and with a different hash. -/
def cexRemoteEntry : SyncManifestEntry :=
  { sessionId := "s1"
    workspaceId := "ws-1"
    workspacePath := "/home/user/project"
    fileExtension := ".jsonl"
    customTitle := "T"
    lastMessageDate := 1000
    creationDate := 1000
    sha := "oldsha"
    deviceId := "device-0"
    updatedAt := 500 }

/-- A remote manifest holding only the `s1` entry. -/
def cexManifest : SyncManifest :=
  { version := 1, deviceId := "device-0", lastSyncTimestamp := 0
    entries := [("s1", cexRemoteEntry)] }

/-- The push plan of the concrete one-session overwrite scenario: `s1` is
newer locally, exists remotely with a different hash, and its remote object
content is `OLDCONTENT`. -/
def cexPlan : Option PushPlan :=
  pushToRemote (fun _ _ => some "RAW") (fun _ rawContent => "ENC:" ++ rawContent)
    (fun _ => "MANIFESTENC")
    (fun p => if p == sessionFilePath "s1" then some "OLDCONTENT" else none)
    (some cexManifest) "device-1" 777 [cexSessionMeta]
    [("s1", cexLocalSession)] [("s1", "newsha")]

/-- The work-list item of the concrete overwrite scenario. -/
def cexPushItem : PushItem :=
  { sessionId := "s1", meta := cexSessionMeta, hash := "newsha", action := .push }

/-- The plan the concrete overwrite scenario stages. -/
def cexPlanValue : PushPlan :=
  { toPush := [cexPushItem]
    manifest :=
      { version := 1, deviceId := "device-1", lastSyncTimestamp := 777
        entries := [("s1", newManifestEntry "s1" cexSessionMeta "newsha" "device-1" 777)] }
    files := [⟨sessionFilePath "s1", "ENC:RAW"⟩, ⟨"manifest.json", "MANIFESTENC"⟩,
      ⟨backupPath "s1" 777, "OLDCONTENT"⟩]
    backups := [⟨backupPath "s1" 777, "OLDCONTENT"⟩] }

end CopilotSync

/-! ## Claim theorems: conflict resolution -/

open CopilotSync

/-- C1 counterexample: with an empty-string local hash equal to an
empty-string remote sha and a newer local timestamp, the code pushes while
the literal rule table (hash equal implies skip) says skip, so `resolve`
does not match the spec's rule table on every input. -/
theorem c1_counterexample :
    resolve (some sampleSession) (some sampleEntry) (some "") = .push ∧
    specRuleTable (some sampleSession) (some sampleEntry) (some "") = .skip := by
  constructor <;> rfl

/-- C1 (amended): for every input, `resolve` returns exactly one of the five
actions and agrees with the section 4.4 rule table amended so that the
hash-equality rule and the tie-break rule apply only to a supplied
*non-empty* hash (the code treats an empty-string hash as absent). -/
theorem c1_resolve_matches_amended_rule_table
    (localS : Option CopilotSession) (remote : Option SyncManifestEntry)
    (h : Option String) :
    resolve localS remote h = specRuleTableAmended localS remote h ∧
    (resolve localS remote h = .push ∨ resolve localS remote h = .pull ∨
     resolve localS remote h = .skip ∨ resolve localS remote h = .newLocal ∨
     resolve localS remote h = .newRemote) := by
  constructor
  · cases localS with
    | none =>
      cases remote with
      | none => rfl
      | some r => rfl
    | some l =>
      cases remote with
      | none => rfl
      | some r =>
        simp only [resolve, specRuleTableAmended, hashMatches, hashDiffers]
        cases h with
        | none => simp
        | some s =>
          by_cases hs : s = ""
          · subst hs; simp
          · by_cases hsha : s = r.sha
            · subst hsha
              simp [hs]
            · simp [hs, hsha, Ne.symm]
  · cases hr : resolve localS remote h <;> simp

/-- C10: when local and remote are both present with equal timestamps, a
missing local hash yields skip, and the tie-break push can only happen when
a hash was supplied that differs from the remote sha. -/
theorem c10_tie_break_needs_hash (l : CopilotSession) (r : SyncManifestEntry)
    (heq : l.lastMessageDate = r.lastMessageDate) :
    resolve (some l) (some r) none = .skip ∧
    (∀ h : Option String, resolve (some l) (some r) h = .push →
      ∃ s, h = some s ∧ s ≠ r.sha) := by
  have hlt : ¬ l.lastMessageDate > r.lastMessageDate := by omega
  have hgt : ¬ r.lastMessageDate > l.lastMessageDate := by omega
  constructor
  · simp [resolve, hashMatches, hashDiffers, hlt, hgt]
  · intro h hpush
    cases h with
    | none => simp [resolve, hashMatches, hashDiffers, hlt, hgt] at hpush
    | some s =>
      refine ⟨s, rfl, ?_⟩
      intro hsha
      subst hsha
      simp [resolve, hashMatches, hashDiffers, hlt, hgt] at hpush

/-- C10 witness: concrete equal-timestamp pair where no supplied hash
resolves to skip. -/
theorem c10_witness :
    resolve (some sampleSession) (some { sampleEntry with lastMessageDate := 2000 }) none
      = .skip := by
  exact (c10_tie_break_needs_hash sampleSession
    { sampleEntry with lastMessageDate := 2000 } (by decide)).1

/-! ## Claim theorems: crypto engine -/

/-- `bytesToStr` inverts `strToBytes`. -/
theorem bytesToStr_strToBytes (s : String) : bytesToStr (strToBytes s) = s := by
  cases s with
  | mk data =>
    simp [bytesToStr, strToBytes, List.map_map, Function.comp_def, Char.ofNat_toNat,
      String.toList]

/-- The reference crypto collaborator satisfies the library contract. -/
theorem refCrypto_lawful : LawfulCrypto refCrypto where
  dec_enc := fun _ _ data => bytesToStr_strToBytes data
  tag_len := fun _ _ c => by simp [refCrypto]

/-- The reference crypto collaborator has injective auth tags. -/
theorem refCrypto_ideal : IdealAuthTag refCrypto := by
  intro key iv c c' h
  simp only [refCrypto, List.cons.injEq] at h
  exact Encodable.encode_injective h.1

/-- Round-trip of the payload scheme under the library contract, shared by
the round-trip and cached-encryptor claims. -/
theorem decrypt_encrypt_of_lawful (lib : NodeCrypto) (hl : LawfulCrypto lib)
    (data passphrase : String) (salt iv : ByteSeq) :
    Encryption.decrypt lib (Encryption.encrypt lib data passphrase salt iv) passphrase
      = .ok data := by
  have htl := hl.tag_len (Encryption.deriveKey lib passphrase salt) iv
    (lib.gcmKeystreamEnc (Encryption.deriveKey lib passphrase salt) iv data)
  simp only [Encryption.encrypt, Encryption.decrypt, Encryption.AUTH_TAG_LENGTH,
    Encryption.CURRENT_VERSION]
  rw [if_neg (by simp)]
  simp only [List.length_append, htl, Nat.add_sub_cancel, List.take_left, List.drop_left]
  simp only [if_true, hl.dec_enc]
  simp

/-- C2: for every passphrase and plaintext (and every salt and IV the
randomness source supplies), decrypting the payload produced by `encrypt`
with the same passphrase returns exactly the plaintext, assuming the Node
crypto library's documented contract. -/
theorem c2_encrypt_decrypt_roundtrip (lib : NodeCrypto) (hl : LawfulCrypto lib)
    (data passphrase : String) (salt iv : ByteSeq) :
    Encryption.decrypt lib (Encryption.encrypt lib data passphrase salt iv) passphrase
      = .ok data :=
  decrypt_encrypt_of_lawful lib hl data passphrase salt iv

/-- C2 witness: the round-trip at a concrete plaintext and passphrase under
the reference collaborator. -/
theorem c2_witness :
    Encryption.decrypt refCrypto
        (Encryption.encrypt refCrypto "hello session" "pass-123" [1, 2] [3]) "pass-123"
      = .ok "hello session" :=
  c2_encrypt_decrypt_roundtrip refCrypto refCrypto_lawful "hello session" "pass-123" [1, 2] [3]

/-- C3 counterexample: an unsupported payload version fails with the
generic unsupported-version error, not with the distinct DecryptionFailed
error, so DecryptionFailed is not raised in exactly the claimed cases. -/
theorem c3_counterexample :
    Encryption.decrypt refCrypto
        { salt := [1], iv := [2], ciphertext := [], version := 2 } "pw"
      = .error (.unsupportedVersion 2) ∧
    (Except.error (DecryptError.unsupportedVersion 2) : Except DecryptError String)
      ≠ .error .decryptionFailed := by
  constructor
  · rfl
  · intro h
    simp at h

/-- C3 (amended): `decrypt` fails with DecryptionFailed exactly when the
payload version is supported, the payload carries a full 16-byte tag, and
the GCM authentication check fails; it returns plaintext only when the
authentication check passes; an unsupported version and a too-short
version-1 payload fail with distinct generic errors instead; and altering
the ciphertext region or the tag region of a genuinely encrypted payload
(as any single bit flip does) always yields DecryptionFailed — never
altered plaintext — under the library contract and ideal unforgeability. -/
theorem c3_decrypt_error_discipline (lib : NodeCrypto) (hl : LawfulCrypto lib)
    (hi : IdealAuthTag lib) :
    (∀ (p : EncryptedPayload) (pass : String), p.version ≠ 1 →
        Encryption.decrypt lib p pass = .error (.unsupportedVersion p.version)) ∧
    (∀ (p : EncryptedPayload) (pass : String), p.version = 1 →
        p.ciphertext.length < Encryption.AUTH_TAG_LENGTH →
        Encryption.decrypt lib p pass = .error (.invalidTagLength p.ciphertext.length)) ∧
    (∀ (p : EncryptedPayload) (pass : String), p.version = 1 →
        Encryption.AUTH_TAG_LENGTH ≤ p.ciphertext.length →
        (Encryption.decrypt lib p pass = .error .decryptionFailed ↔
          ¬ Encryption.authTagOk lib p pass) ∧
        (∀ t, Encryption.decrypt lib p pass = .ok t → Encryption.authTagOk lib p pass)) ∧
    (∀ (data pass : String) (salt iv ct' : ByteSeq),
        ct'.length = (Encryption.encrypt lib data pass salt iv).ciphertext.length →
        ct' ≠ (Encryption.encrypt lib data pass salt iv).ciphertext →
        (ct'.take (ct'.length - 16)
            = (Encryption.encrypt lib data pass salt iv).ciphertext.take
                ((Encryption.encrypt lib data pass salt iv).ciphertext.length - 16) ∨
         ct'.drop (ct'.length - 16)
            = (Encryption.encrypt lib data pass salt iv).ciphertext.drop
                ((Encryption.encrypt lib data pass salt iv).ciphertext.length - 16)) →
        Encryption.decrypt lib { salt := salt, iv := iv, ciphertext := ct', version := 1 } pass
          = .error .decryptionFailed) := by
  refine ⟨?_, ?_, ?_, ?_⟩
  · intro p pass hv
    simp only [Encryption.decrypt, Encryption.CURRENT_VERSION]
    rw [if_pos hv]
  · intro p pass hv hshort
    simp only [Encryption.AUTH_TAG_LENGTH] at hshort
    simp only [Encryption.decrypt, Encryption.CURRENT_VERSION, Encryption.AUTH_TAG_LENGTH, hv]
    rw [if_neg (by simp)]
    have hdl : (p.ciphertext.drop (p.ciphertext.length - 16)).length
        = p.ciphertext.length := by
      rw [List.length_drop]
      omega
    rw [if_pos (by rw [hdl]; omega), hdl]
  · intro p pass hv hlong
    simp only [Encryption.AUTH_TAG_LENGTH] at hlong
    have hdl : (p.ciphertext.drop (p.ciphertext.length - 16)).length = 16 := by
      rw [List.length_drop]
      omega
    simp only [Encryption.decrypt, Encryption.CURRENT_VERSION, Encryption.AUTH_TAG_LENGTH,
      Encryption.authTagOk, hv]
    rw [if_neg (by simp), if_neg (by simp [hdl])]
    constructor
    · by_cases hok : lib.gcmAuthTag (Encryption.deriveKey lib pass p.salt) p.iv
          (p.ciphertext.take (p.ciphertext.length - 16))
          = p.ciphertext.drop (p.ciphertext.length - 16)
      · rw [if_pos hok]
        simp [hok]
      · rw [if_neg hok]
        simp [hok]
    · intro t hok
      by_cases hc : lib.gcmAuthTag (Encryption.deriveKey lib pass p.salt) p.iv
          (p.ciphertext.take (p.ciphertext.length - 16))
          = p.ciphertext.drop (p.ciphertext.length - 16)
      · exact hc
      · rw [if_neg hc] at hok
        exact absurd hok (by simp)
  · intro data pass salt iv ct' hlen hne hpres
    have htl := hl.tag_len (Encryption.deriveKey lib pass salt) iv
      (lib.gcmKeystreamEnc (Encryption.deriveKey lib pass salt) iv data)
    have horig : (Encryption.encrypt lib data pass salt iv).ciphertext
        = lib.gcmKeystreamEnc (Encryption.deriveKey lib pass salt) iv data
          ++ lib.gcmAuthTag (Encryption.deriveKey lib pass salt) iv
              (lib.gcmKeystreamEnc (Encryption.deriveKey lib pass salt) iv data) := rfl
    generalize henc : lib.gcmKeystreamEnc (Encryption.deriveKey lib pass salt) iv data = enc
      at htl horig
    generalize htag : lib.gcmAuthTag (Encryption.deriveKey lib pass salt) iv enc = tagO
      at htl horig
    rw [horig] at hlen hne hpres
    have hc2t2 : ct' = ct'.take (ct'.length - 16) ++ ct'.drop (ct'.length - 16) :=
      (List.take_append_drop _ ct').symm
    have hlen2 : (enc ++ tagO).length - 16 = enc.length := by
      simp [htl]
    have htk : (enc ++ tagO).take ((enc ++ tagO).length - 16) = enc := by
      rw [hlen2]
      exact List.take_left enc tagO
    have hdr : (enc ++ tagO).drop ((enc ++ tagO).length - 16) = tagO := by
      rw [hlen2]
      exact List.drop_left enc tagO
    rw [htk, hdr] at hpres
    have hctlen : ct'.length = enc.length + 16 := by
      rw [hlen]
      simp [htl]
    have hdl : (ct'.drop (ct'.length - 16)).length = 16 := by
      rw [List.length_drop]
      omega
    simp only [Encryption.decrypt, Encryption.CURRENT_VERSION, Encryption.AUTH_TAG_LENGTH]
    rw [if_neg (by simp), if_neg (by simp [hdl])]
    have hguard : ¬ lib.gcmAuthTag (Encryption.deriveKey lib pass salt) iv
        (ct'.take (ct'.length - 16)) = ct'.drop (ct'.length - 16) := by
      intro hg
      rcases hpres with hp | hp
      · apply hne
        rw [hc2t2, hp, ← hg, hp, htag]
      · apply hne
        have hceq : ct'.take (ct'.length - 16) = enc := by
          apply hi (Encryption.deriveKey lib pass salt) iv
          rw [hg, hp, htag]
        rw [hc2t2, hceq, hp]
    rw [if_neg hguard]

/-- C3 witness: a concrete payload whose tag byte was altered decrypts to
the DecryptionFailed error under the reference collaborator. -/
theorem c3_witness :
    Encryption.decrypt refCrypto
        { salt := [1], iv := [2]
          ciphertext := strToBytes "hi"
            ++ ((Encodable.encode (strToBytes "hi") + 1) :: List.replicate 15 0)
          version := 1 } "pw"
      = .error .decryptionFailed := by
  have h := (c3_decrypt_error_discipline refCrypto refCrypto_lawful refCrypto_ideal).2.2.2
    "hi" "pw" [1] [2]
    (strToBytes "hi" ++ ((Encodable.encode (strToBytes "hi") + 1) :: List.replicate 15 0))
  exact h (by decide) (by decide) (Or.inl (by decide))

/-- C9 (spec-modelled): the cached encryptor derives its key once from a
single salt; every payload it produces carries that same salt (with the
per-call IV), coincides with what the standard `encrypt` would produce for
that salt and IV, and decrypts under the standard `decrypt` with the same
passphrase to the original plaintext. -/
theorem c9_cached_encryptor (lib : NodeCrypto) (hl : LawfulCrypto lib)
    (passphrase : String) (salt : ByteSeq) (data : String) (iv : ByteSeq) :
    ((createCachedEncryptor lib passphrase salt).encrypt lib data iv).salt = salt ∧
    (createCachedEncryptor lib passphrase salt).encrypt lib data iv
      = Encryption.encrypt lib data passphrase salt iv ∧
    Encryption.decrypt lib
        ((createCachedEncryptor lib passphrase salt).encrypt lib data iv) passphrase
      = .ok data := by
  refine ⟨rfl, rfl, ?_⟩
  exact decrypt_encrypt_of_lawful lib hl data passphrase salt iv

/-- C9 witness: concrete cached-encryptor payloads under the reference
collaborator. -/
theorem c9_witness :
    ((createCachedEncryptor refCrypto "pass-123" [7]).encrypt refCrypto "first" [1]).salt
      = [7] ∧
    Encryption.decrypt refCrypto
        ((createCachedEncryptor refCrypto "pass-123" [7]).encrypt refCrypto "first" [1])
        "pass-123"
      = .ok "first" :=
  ⟨(c9_cached_encryptor refCrypto refCrypto_lawful "pass-123" [7] "first" [1]).1,
   (c9_cached_encryptor refCrypto refCrypto_lawful "pass-123" [7] "first" [1]).2.2⟩

/-! ## Claim theorems: metadata filter, hash cache, manifest failure -/

/-- C4 counterexample: an item with no last-activity time (0) but a creation
time well within the 90-day window is dropped by the filter, so the filter
neither falls back to creation time nor treats the item as always-recent. -/
theorem c4_counterexample :
    readRecentSessionMetadata 8640000000 90 [cexNoActivityMeta] = [] ∧
    cexNoActivityMeta.creationDate ≥ 8640000000 - 90 * msPerDay ∧
    cexNoActivityMeta.lastMessageDate = 0 ∧
    extractMinimalMetadata none = metaDefaults ∧
    metaDefaults.lastMessageDate = 0 := by
  refine ⟨?_, by decide, by decide, rfl, by decide⟩
  decide

/-- C4 (amended): the recent-metadata filter keeps exactly the items whose
last-activity time is within N days of now; there is no fallback to
creation time, and an item whose last-activity time is unset (the
extraction default 0, as when no header record parses) is excluded whenever
the cutoff is positive, rather than treated as always-recent. -/
theorem c4_filter_uses_last_activity_only (now maxAgeDays : Int)
    (all : List SessionMetadata) (m : SessionMetadata) :
    (m ∈ readRecentSessionMetadata now maxAgeDays all ↔
      m ∈ all ∧ m.lastMessageDate ≥ now - maxAgeDays * msPerDay) ∧
    extractMinimalMetadata none = metaDefaults ∧
    (m ∈ all → m.lastMessageDate = 0 → 0 < now - maxAgeDays * msPerDay →
      m ∉ readRecentSessionMetadata now maxAgeDays all) := by
  refine ⟨?_, rfl, ?_⟩
  · simp [readRecentSessionMetadata, List.mem_filter]
  · intro hmem hzero hpos hcontra
    simp [readRecentSessionMetadata, List.mem_filter, hzero] at hcontra
    omega

/-- C4 witness: the exclusion branch at the concrete day-100 scenario. -/
theorem c4_witness :
    cexNoActivityMeta ∉ readRecentSessionMetadata 8640000000 90 [cexNoActivityMeta] :=
  (c4_filter_uses_last_activity_only 8640000000 90 [cexNoActivityMeta]
    cexNoActivityMeta).2.2 (by decide) (by decide) (by decide)

/-- C7 counterexample: on a cache miss over an empty session file, the code
returns an empty hash with `needsRead = false` and an unchanged cache,
whereas the claim demands hashing the loaded content, storing the entry and
returning `wasRead = true` — and the content hash of the empty string is
not the empty hash the code returns. -/
theorem c7_counterexample :
    getContentHash (fun _ _ => some "") (fun s => "H:" ++ s) cexSessionMeta []
      = ({ hash := "", needsRead := false }, ([] : HashCache)) ∧
    (fun s => "H:" ++ s) "" ≠ "" ∧
    ([] : HashCache).lookup "s1" = none := by
  refine ⟨rfl, by decide, rfl⟩

/-- C7 (amended): a cache entry whose fingerprint (mtime and size) matches
the metadata exactly yields the cached hash with `needsRead = false`,
leaves the cache unchanged and never invokes the content source; with any
other cache state, `getContentHash` reads the content and — when it is
non-empty — hashes it, stores hash and fingerprint under the session id
and returns `needsRead = true`, while an absent or empty content (both
falsy in the code's guard) yields an empty hash with `needsRead = false`
and no cache write. -/
theorem c7_hash_cache_correct (readSessionContent : String → String → Option String)
    (hashContent : String → String) (meta : SessionMetadata) (cache : HashCache) :
    (∀ c, cache.lookup meta.id = some c → c.mtimeMs = meta.mtimeMs →
      c.sizeBytes = meta.sizeBytes →
      getContentHash readSessionContent hashContent meta cache
        = ({ hash := c.hash, needsRead := false }, cache) ∧
      ∀ read2 : String → String → Option String,
        getContentHash read2 hashContent meta cache
          = getContentHash readSessionContent hashContent meta cache) ∧
    (∀ content, readSessionContent meta.workspaceId meta.id = some content →
      content ≠ "" →
      (∀ c, cache.lookup meta.id = some c →
        ¬(c.mtimeMs = meta.mtimeMs ∧ c.sizeBytes = meta.sizeBytes)) →
      getContentHash readSessionContent hashContent meta cache
        = ({ hash := hashContent content, needsRead := true },
           cache.store meta.id
             { hash := hashContent content, mtimeMs := meta.mtimeMs
               sizeBytes := meta.sizeBytes }) ∧
      (cache.store meta.id
          { hash := hashContent content, mtimeMs := meta.mtimeMs
            sizeBytes := meta.sizeBytes }).lookup meta.id
        = some { hash := hashContent content, mtimeMs := meta.mtimeMs
                 sizeBytes := meta.sizeBytes }) ∧
    ((readSessionContent meta.workspaceId meta.id = none ∨
        readSessionContent meta.workspaceId meta.id = some "") →
      (∀ c, cache.lookup meta.id = some c →
        ¬(c.mtimeMs = meta.mtimeMs ∧ c.sizeBytes = meta.sizeBytes)) →
      getContentHash readSessionContent hashContent meta cache
        = ({ hash := "", needsRead := false }, cache)) := by
  refine ⟨?_, ?_, ?_⟩
  · intro c hc hmt hsz
    constructor
    · simp [getContentHash, hc, hmt, hsz]
    · intro read2
      simp [getContentHash, hc, hmt, hsz]
  · intro content hread hcne hstale
    constructor
    · cases hc : cache.lookup meta.id with
      | none => simp [getContentHash, hc, getContentHashFresh, hread, hcne]
      | some c =>
        have hnot := hstale c hc
        simp only [getContentHash, hc]
        rw [if_neg hnot]
        simp [getContentHashFresh, hread, hcne]
    · simp [HashCache.store, List.lookup]
  · intro hfalsy hstale
    have hfresh : getContentHashFresh readSessionContent hashContent meta cache
        = ({ hash := "", needsRead := false }, cache) := by
      rcases hfalsy with hf | hf
      · simp [getContentHashFresh, hf]
      · simp [getContentHashFresh, hf]
    cases hc : cache.lookup meta.id with
    | none => simp [getContentHash, hc, hfresh]
    | some c =>
      have hnot := hstale c hc
      simp only [getContentHash, hc]
      rw [if_neg hnot]
      exact hfresh

/-- C7 witness: a fingerprint hit returns the cached hash without reading,
an empty cache with non-empty content forces a read, hash and store, and an
empty file yields the empty hash without caching. -/
theorem c7_witness :
    getContentHash (fun _ _ => some "RAW") (fun s => "H:" ++ s) cexSessionMeta
        [("s1", { hash := "h1", mtimeMs := 5, sizeBytes := 10 })]
      = ({ hash := "h1", needsRead := false },
         [("s1", { hash := "h1", mtimeMs := 5, sizeBytes := 10 })]) ∧
    getContentHash (fun _ _ => some "RAW") (fun s => "H:" ++ s) cexSessionMeta []
      = ({ hash := "H:RAW", needsRead := true },
         HashCache.store [] "s1" { hash := "H:RAW", mtimeMs := 5, sizeBytes := 10 }) ∧
    getContentHash (fun _ _ => some "") (fun s => "H:" ++ s) cexSessionMeta []
      = ({ hash := "", needsRead := false }, ([] : HashCache)) := by
  refine ⟨?_, ?_, ?_⟩
  · exact ((c7_hash_cache_correct (fun _ _ => some "RAW") (fun s => "H:" ++ s) cexSessionMeta
      [("s1", { hash := "h1", mtimeMs := 5, sizeBytes := 10 })]).1
      { hash := "h1", mtimeMs := 5, sizeBytes := 10 } (by decide) rfl rfl).1
  · exact ((c7_hash_cache_correct (fun _ _ => some "RAW") (fun s => "H:" ++ s) cexSessionMeta
      []).2.1 "RAW" rfl (by decide) (by intro c hc; simp [List.lookup] at hc)).1
  · exact (c7_hash_cache_correct (fun _ _ => some "") (fun s => "H:" ++ s) cexSessionMeta
      []).2.2 (Or.inr rfl) (by intro c hc; simp [List.lookup] at hc)

/-- C8: when the remote manifest cannot be fetched, decrypted or parsed,
`getRemoteManifest` returns `none` instead of failing the cycle, the pull
phase pulls nothing, and the push phase proceeds against a freshly created
empty manifest, against which every locally present item resolves to
new-local. -/
theorem c8_manifest_failure_scopes (lib : NodeCrypto)
    (parseManifest : String → Option SyncManifest) (pass : String)
    (payload : EncryptedPayload) (e : DecryptError)
    (hdec : Encryption.decrypt lib payload pass = .error e)
    (wsId : Option String) (localMap : List (String × CopilotSession))
    (localHashes : List (String × String)) (deviceId : String) (now : Int) :
    getRemoteManifest lib parseManifest (some pass) (some payload) = none ∧
    pullFromRemote wsId (getRemoteManifest lib parseManifest (some pass) (some payload))
        localMap localHashes = [] ∧
    pushManifestBase (getRemoteManifest lib parseManifest (some pass) (some payload))
        deviceId now = emptyManifest deviceId now ∧
    (∀ q ∈ resolveAll localMap (emptyManifest deviceId now).entries localHashes,
      (localMap.lookup q.1).isSome → q.2 = ConflictAction.newLocal) := by
  have hnone : getRemoteManifest lib parseManifest (some pass) (some payload) = none := by
    simp [getRemoteManifest, hdec]
  refine ⟨hnone, ?_, ?_, ?_⟩
  · rw [hnone]
    cases wsId <;> rfl
  · rw [hnone]
    rfl
  · intro q hq hsome
    simp only [resolveAll, List.mem_map] at hq
    obtain ⟨id, _, rfl⟩ := hq
    simp only at hsome ⊢
    cases hl : localMap.lookup id with
    | none => rw [hl] at hsome; simp at hsome
    | some s =>
      simp [emptyManifest, resolve, List.lookup]

/-- C8 witness: a concrete undecryptable manifest payload leaves the pull
phase empty while the push base is the fresh empty manifest. -/
theorem c8_witness :
    getRemoteManifest refCrypto (fun _ => none) (some "pw")
        (some { salt := [], iv := [], ciphertext := [], version := 2 }) = none ∧
    pullFromRemote (some "ws")
        (getRemoteManifest refCrypto (fun _ => none) (some "pw")
          (some { salt := [], iv := [], ciphertext := [], version := 2 }))
        [("s1", cexLocalSession)] [] = [] ∧
    pushManifestBase
        (getRemoteManifest refCrypto (fun _ => none) (some "pw")
          (some { salt := [], iv := [], ciphertext := [], version := 2 }))
        "device-1" 0 = emptyManifest "device-1" 0 := by
  have h := c8_manifest_failure_scopes refCrypto (fun _ => none) "pw"
    { salt := [], iv := [], ciphertext := [], version := 2 }
    (.unsupportedVersion 2) (by rfl) (some "ws") [("s1", cexLocalSession)] [] "device-1" 0
  exact ⟨h.1, h.2.1, h.2.2.1⟩

/-! ## Claim theorems: backup staging and commit fallback -/

/-- `selectToPush` is the filterMap of `selectItem`. -/
theorem selectToPush_eq (metadata : List SessionMetadata)
    (localHashes : List (String × String)) (actions : List (String × ConflictAction)) :
    selectToPush metadata localHashes actions
      = actions.filterMap (selectItem metadata localHashes) := rfl

/-- Insertion-ordered de-duplication produces a duplicate-free list. -/
theorem insertionDedup_nodup (l : List String) : (insertionDedup l).Nodup := by
  suffices h : ∀ acc : List String, acc.Nodup →
      (l.foldl (fun acc a => if a ∈ acc then acc else acc ++ [a]) acc).Nodup from
    h [] List.nodup_nil
  induction l with
  | nil => intro acc h; exact h
  | cons a t ih =>
    intro acc hacc
    simp only [List.foldl_cons]
    by_cases hmem : a ∈ acc
    · rw [if_pos hmem]; exact ih acc hacc
    · rw [if_neg hmem]
      exact ih _ (by simp [List.nodup_append, hacc, hmem])

/-- The ids `resolveAll` maps over are duplicate-free. -/
theorem resolveAll_keys_nodup (ls : List (String × CopilotSession))
    (re : List (String × SyncManifestEntry)) (lh : List (String × String)) :
    ((resolveAll ls re lh).map Prod.fst).Nodup := by
  have h := insertionDedup_nodup (ls.map Prod.fst ++ re.map Prod.fst)
  simpa [resolveAll, List.map_map, Function.comp_def] using h

/-- Mapping a selector over a filterMap yields a sublist of the mapped
source when the selector preserves the key. -/
theorem map_filterMap_sublist {α β γ : Type} (g : α → Option β) (h : β → γ) (k : α → γ)
    (H : ∀ a b, g a = some b → h b = k a) (l : List α) :
    ((l.filterMap g).map h).Sublist (l.map k) := by
  induction l with
  | nil => simp
  | cons a t ih =>
    cases hg : g a with
    | none =>
      simp only [List.filterMap_cons, hg, List.map_cons]
      exact ih.cons (k a)
    | some b =>
      simp only [List.filterMap_cons, hg, List.map_cons, H a b hg]
      exact ih.cons₂ (k a)

/-- `selectItem` keeps the action key as the session id. -/
theorem selectItem_sessionId (metadata : List SessionMetadata)
    (localHashes : List (String × String)) (p : String × ConflictAction) (i : PushItem)
    (h : selectItem metadata localHashes p = some i) : i.sessionId = p.1 := by
  obtain ⟨pid, pact⟩ := p
  unfold selectItem at h
  cases pact with
  | push =>
    cases hfind : List.find? (fun m => m.id == pid) metadata with
    | none => rw [hfind] at h; simp at h
    | some meta =>
      cases hlook : List.lookup pid localHashes with
      | none => rw [hfind, hlook] at h; simp at h
      | some hsh =>
        rw [hfind, hlook] at h
        simp only [Option.some.injEq] at h
        rw [← h]
  | newLocal =>
    cases hfind : List.find? (fun m => m.id == pid) metadata with
    | none => rw [hfind] at h; simp at h
    | some meta =>
      cases hlook : List.lookup pid localHashes with
      | none => rw [hfind, hlook] at h; simp at h
      | some hsh =>
        rw [hfind, hlook] at h
        simp only [Option.some.injEq] at h
        rw [← h]
  | pull => simp at h
  | skip => simp at h
  | newRemote => simp at h

/-- The session ids of the push work list are duplicate-free. -/
theorem selectToPush_sessionIds_nodup (metadata : List SessionMetadata)
    (ls : List (String × CopilotSession)) (re : List (String × SyncManifestEntry))
    (lh : List (String × String)) :
    ((selectToPush metadata lh (resolveAll ls re lh)).map PushItem.sessionId).Nodup := by
  have hsub := map_filterMap_sublist (selectItem metadata lh) PushItem.sessionId Prod.fst
    (selectItem_sessionId metadata lh) (resolveAll ls re lh)
  rw [← selectToPush_eq] at hsub
  exact (resolveAll_keys_nodup ls re lh).sublist hsub

/-- One loop iteration appends exactly its step contributions. -/
theorem pushLoopStep_spec (rc : String → String → Option String)
    (ep : SessionMetadata → String → String) (rg : String → Option String)
    (rm : List (String × SyncManifestEntry)) (dev : String) (now : Int)
    (st : PushLoopState) (item : PushItem) :
    (pushLoopStep rc ep rg rm dev now st item).backupFiles
        = st.backupFiles ++ stepBackups rc rg rm now item ∧
    (pushLoopStep rc ep rg rm dev now st item).filesToPush
        = st.filesToPush ++ stepFiles rc ep item := by
  unfold pushLoopStep stepBackups stepFiles
  cases hrc : rc item.meta.workspaceId item.sessionId with
  | none => simp
  | some rawContent =>
    by_cases hraw : rawContent = ""
    · simp [hraw]
    · constructor
      · dsimp only
        rw [if_neg hraw, if_neg hraw]
        by_cases hcond : item.action = ConflictAction.push ∧ (rm.lookup item.sessionId).isSome
        · rw [if_pos hcond, if_pos hcond]
          cases hrg : rg (sessionFilePath item.sessionId) with
          | none => simp
          | some existingContent =>
            by_cases hec : existingContent = ""
            · simp [hec]
            · simp [hec]
        · rw [if_neg hcond, if_neg hcond]
          simp
      · dsimp only
        rw [if_neg hraw, if_neg hraw]

/-- The push loop stages the concatenation of the per-item contributions,
in work-list order. -/
theorem pushLoop_spec (rc : String → String → Option String)
    (ep : SessionMetadata → String → String) (rg : String → Option String)
    (rm : List (String × SyncManifestEntry)) (dev : String) (now : Int)
    (toPush : List PushItem) :
    ∀ st : PushLoopState,
      (toPush.foldl (pushLoopStep rc ep rg rm dev now) st).backupFiles
          = st.backupFiles ++ toPush.flatMap (stepBackups rc rg rm now) ∧
      (toPush.foldl (pushLoopStep rc ep rg rm dev now) st).filesToPush
          = st.filesToPush ++ toPush.flatMap (stepFiles rc ep) := by
  induction toPush with
  | nil => intro st; simp
  | cons item rest ih =>
    intro st
    simp only [List.foldl_cons, List.flatMap_cons]
    obtain ⟨ihb, ihf⟩ := ih (pushLoopStep rc ep rg rm dev now st item)
    obtain ⟨hsb, hsf⟩ := pushLoopStep_spec rc ep rg rm dev now st item
    constructor
    · rw [ihb, hsb, List.append_assoc]
    · rw [ihf, hsf, List.append_assoc]

/-- Segment lengths used for backup-path arithmetic. -/
theorem backupPath_length (sessionId : String) (now : Int) :
    (backupPath sessionId now).length
      = 29 + sessionId.length + (toString now).length := by
  have h1 : ("sessions/backups/" : String).length = 17 := rfl
  have h2 : (".backup-" : String).length = 8 := rfl
  have h3 : (".enc" : String).length = 4 := rfl
  simp only [backupPath, String.length_append, h1, h2, h3]
  omega

/-- A backup path never collides with the manifest path. -/
theorem backupPath_ne_manifest (sessionId : String) (now : Int) :
    backupPath sessionId now ≠ "manifest.json" := by
  intro h
  have hlen := congrArg String.length h
  rw [backupPath_length] at hlen
  have hm : ("manifest.json" : String).length = 13 := rfl
  omega

/-- A backup path never collides with the session's own live object path. -/
theorem backupPath_ne_sessionFilePath (sessionId : String) (now : Int) :
    backupPath sessionId now ≠ sessionFilePath sessionId := by
  intro h
  have hlen := congrArg String.length h
  rw [backupPath_length] at hlen
  have h1 : ("sessions/" : String).length = 9 := rfl
  have h2 : (".enc" : String).length = 4 := rfl
  simp only [sessionFilePath, String.length_append, h1, h2] at hlen
  omega

/-- Backup paths generated at the same instant identify the session. -/
theorem backupPath_inj (now : Int) (a b : String)
    (h : backupPath a now = backupPath b now) : a = b := by
  have hd := congrArg String.data h
  simp only [backupPath, String.data_append] at hd
  have hd1 := List.append_cancel_right hd
  have hd2 := List.append_cancel_right hd1
  have hd3 := List.append_cancel_right hd2
  have hd4 := List.append_cancel_left hd3
  cases a; cases b
  exact congrArg String.mk hd4

/-- Every file `stepBackups` stages sits at the item's backup path. -/
theorem stepBackups_shape (rc : String → String → Option String)
    (rg : String → Option String) (rm : List (String × SyncManifestEntry)) (now : Int)
    (j : PushItem) (f : StagedFile) (hf : f ∈ stepBackups rc rg rm now j) :
    f.path = backupPath j.sessionId now := by
  unfold stepBackups at hf
  cases hrc : rc j.meta.workspaceId j.sessionId with
  | none => rw [hrc] at hf; simp at hf
  | some rawContent =>
    rw [hrc] at hf
    dsimp only at hf
    by_cases hraw : rawContent = ""
    · rw [if_pos hraw] at hf
      simp at hf
    · rw [if_neg hraw] at hf
      by_cases hcond : j.action = ConflictAction.push ∧ (rm.lookup j.sessionId).isSome
      · rw [if_pos hcond] at hf
        cases hrg : rg (sessionFilePath j.sessionId) with
        | none => rw [hrg] at hf; simp at hf
        | some c =>
          rw [hrg] at hf
          dsimp only at hf
          by_cases hec : c = ""
          · rw [if_pos hec] at hf
            simp at hf
          · rw [if_neg hec] at hf
            simp only [List.mem_singleton] at hf
            rw [hf]
      · rw [if_neg hcond] at hf
        simp at hf

/-- An item with a different session id contributes no file at our backup
path. -/
theorem countP_stepBackups_ne (rc : String → String → Option String)
    (rg : String → Option String) (rm : List (String × SyncManifestEntry)) (now : Int)
    (j : PushItem) (id : String) (hne : j.sessionId ≠ id) :
    (stepBackups rc rg rm now j).countP (fun f => f.path == backupPath id now) = 0 := by
  rw [List.countP_eq_zero]
  intro f hf
  have hp := stepBackups_shape rc rg rm now j f hf
  simp only [hp, beq_iff_eq]
  intro hcontra
  exact hne (backupPath_inj now _ _ hcontra)

/-- Among the contributions of a duplicate-free work list, the backup at
our item's path occurs exactly once and carries the fetched remote
content. -/
theorem countP_flatMap_backups (rc : String → String → Option String)
    (rg : String → Option String) (rm : List (String × SyncManifestEntry)) (now : Int)
    (toPush : List PushItem) (item : PushItem) (c : String)
    (hnodup : (toPush.map PushItem.sessionId).Nodup) (hmem : item ∈ toPush)
    (hstep : stepBackups rc rg rm now item
      = [⟨backupPath item.sessionId now, c⟩]) :
    (toPush.flatMap (stepBackups rc rg rm now)).countP
        (fun f => f.path == backupPath item.sessionId now) = 1 ∧
    StagedFile.mk (backupPath item.sessionId now) c
      ∈ toPush.flatMap (stepBackups rc rg rm now) := by
  obtain ⟨s, t, rfl⟩ := List.append_of_mem hmem
  have hmap : (s ++ item :: t).map PushItem.sessionId
      = s.map PushItem.sessionId ++ item.sessionId :: t.map PushItem.sessionId := by
    simp
  rw [hmap, List.nodup_append] at hnodup
  obtain ⟨-, hcons, hdisj⟩ := hnodup
  rw [List.nodup_cons] at hcons
  have hns : ∀ j ∈ s, j.sessionId ≠ item.sessionId := by
    intro j hj heq
    exact hdisj (List.mem_map_of_mem PushItem.sessionId hj)
      (heq ▸ List.mem_cons_self item.sessionId (t.map PushItem.sessionId))
  have hnt : ∀ j ∈ t, j.sessionId ≠ item.sessionId := by
    intro j hj heq
    exact hcons.1 (heq ▸ List.mem_map_of_mem PushItem.sessionId hj)
  constructor
  · rw [List.flatMap_append, List.flatMap_cons, List.countP_append, List.countP_append]
    have hzs : (s.flatMap (stepBackups rc rg rm now)).countP
        (fun f => f.path == backupPath item.sessionId now) = 0 := by
      rw [List.countP_eq_zero]
      intro f hf
      rw [List.mem_flatMap] at hf
      obtain ⟨j, hj, hfj⟩ := hf
      have hp := stepBackups_shape rc rg rm now j f hfj
      simp only [hp, beq_iff_eq]
      intro hcontra
      exact hns j hj (backupPath_inj now _ _ hcontra)
    have hzt : (t.flatMap (stepBackups rc rg rm now)).countP
        (fun f => f.path == backupPath item.sessionId now) = 0 := by
      rw [List.countP_eq_zero]
      intro f hf
      rw [List.mem_flatMap] at hf
      obtain ⟨j, hj, hfj⟩ := hf
      have hp := stepBackups_shape rc rg rm now j f hfj
      simp only [hp, beq_iff_eq]
      intro hcontra
      exact hnt j hj (backupPath_inj now _ _ hcontra)
    rw [hzs, hzt, hstep]
    simp
  · rw [List.flatMap_append, List.flatMap_cons, hstep]
    exact List.mem_append_right _ (List.mem_append_left _ (List.mem_singleton_self _))

/-- Looking up the path just written yields the new content. -/
theorem lookup_put_self (s : RepoFiles) (path c : String) :
    (RepoFiles.put s path c).lookup path = some c := by
  induction s with
  | nil => simp [RepoFiles.put, List.lookup]
  | cons p rest ih =>
    rcases p with ⟨q, d⟩
    by_cases h : q = path
    · subst h
      simp [RepoFiles.put, List.lookup]
    · unfold RepoFiles.put
      rw [if_neg (by simpa using h)]
      have hpq : (path == q) = false := by
        simp [Ne.symm h]
      simp [List.lookup, hpq, ih]

/-- Writing one path leaves lookups of other paths unchanged. -/
theorem lookup_put_other (s : RepoFiles) (path q c : String) (hne : path ≠ q) :
    (RepoFiles.put s q c).lookup path = s.lookup path := by
  induction s with
  | nil =>
    have hb : (path == q) = false := by simp [hne]
    simp [RepoFiles.put, List.lookup, hb]
  | cons p rest ih =>
    rcases p with ⟨k, d⟩
    by_cases h : k = q
    · subst h
      unfold RepoFiles.put
      rw [if_pos (by simp)]
      have hb : (path == k) = false := by simp [hne]
      simp [List.lookup, hb]
    · unfold RepoFiles.put
      rw [if_neg (by simpa using h)]
      cases hpk : path == k with
      | true => simp [List.lookup, hpk]
      | false => simp [List.lookup, hpk, ih]

/-- Sequentially writing files that avoid a path leaves its lookup
unchanged. -/
theorem lookup_sequentialPuts_not_mem (path : String) (files : List StagedFile)
    (hne : ∀ f ∈ files, f.path ≠ path) :
    ∀ s : RepoFiles, (sequentialPuts s files).lookup path = s.lookup path := by
  induction files with
  | nil => intro s; rfl
  | cons f rest ih =>
    intro s
    show (sequentialPuts (putFile s f.path f.content) rest).lookup path = s.lookup path
    rw [ih (fun g hg => hne g (List.mem_cons_of_mem f hg)) (putFile s f.path f.content)]
    exact lookup_put_other s path f.path f.content
      (fun h => hne f (List.mem_cons_self f rest) h.symm)

/-- Inversion of a successful staging run: the plan's components in terms
of the work list, the push loop and the final manifest. -/
theorem pushToRemote_inv (rc : String → String → Option String)
    (ep : SessionMetadata → String → String) (em : SyncManifest → String)
    (rg : String → Option String) (mfst : Option SyncManifest) (dev : String) (now : Int)
    (md : List SessionMetadata) (lm : List (String × CopilotSession))
    (lh : List (String × String)) (plan : PushPlan)
    (hplan : pushToRemote rc ep em rg mfst dev now md lm lh = some plan) :
    plan.toPush = selectToPush md lh
        (resolveAll lm (pushManifestBase mfst dev now).entries lh) ∧
    plan.backups = (pushLoop rc ep rg (pushManifestBase mfst dev now).entries dev now
        plan.toPush (pushManifestBase mfst dev now).entries).backupFiles ∧
    plan.files = (pushLoop rc ep rg (pushManifestBase mfst dev now).entries dev now
        plan.toPush (pushManifestBase mfst dev now).entries).filesToPush
      ++ [⟨"manifest.json", em plan.manifest⟩] ++ plan.backups := by
  simp only [pushToRemote] at hplan
  split at hplan
  · exact absurd hplan (by simp)
  · split at hplan
    · exact absurd hplan (by simp)
    · split at hplan
      · exact absurd hplan (by simp)
      · rw [Option.some.injEq] at hplan
        subst hplan
        exact ⟨rfl, rfl, rfl⟩

/-- C5 counterexample: in a one-session overwrite scenario the staged file
list — which the sequential-put fallback writes in order — puts the live
session object first and the backup object last, so on the fallback path
the backup is not created before the live object is overwritten. -/
theorem c5_counterexample :
    cexPlan.map (fun plan => plan.files.map StagedFile.path)
      = some [sessionFilePath "s1", "manifest.json", backupPath "s1" 777] ∧
    [sessionFilePath "s1", "manifest.json", backupPath "s1" 777].head?
      = some (sessionFilePath "s1") ∧
    [sessionFilePath "s1", "manifest.json", backupPath "s1" 777].getLast?
      = some (backupPath "s1" 777) ∧
    sessionFilePath "s1" ≠ backupPath "s1" 777 := by
  refine ⟨by decide, rfl, rfl, ?_⟩
  intro h
  exact backupPath_ne_sessionFilePath "s1" 777 h.symm

/-- C5 (amended): for every pushed item whose local content re-reads
non-empty, that already exists in the remote manifest and whose remote
object is readable and non-empty (the code's truthiness guards treat empty
strings as absent), exactly one backup object holding the currently stored
remote content is staged at its distinct timestamped backup path, and it is
committed in the same batch as the new live object; on the sequential
fallback, however, the staged order writes the backup after the live
object (the backup content was read before anything is written). -/
theorem c5_backup_staged (rc : String → String → Option String)
    (ep : SessionMetadata → String → String) (em : SyncManifest → String)
    (rg : String → Option String) (mfst : Option SyncManifest) (dev : String) (now : Int)
    (md : List SessionMetadata) (lm : List (String × CopilotSession))
    (lh : List (String × String)) (plan : PushPlan) (item : PushItem) (c raw : String)
    (hplan : pushToRemote rc ep em rg mfst dev now md lm lh = some plan)
    (hmem : item ∈ plan.toPush)
    (hact : item.action = ConflictAction.push)
    (hrm : ((pushManifestBase mfst dev now).entries.lookup item.sessionId).isSome)
    (hget : rg (sessionFilePath item.sessionId) = some c) (hcne : c ≠ "")
    (hread : rc item.meta.workspaceId item.sessionId = some raw) (hrawne : raw ≠ "") :
    plan.backups.countP (fun f => f.path == backupPath item.sessionId now) = 1 ∧
    StagedFile.mk (backupPath item.sessionId now) c ∈ plan.backups ∧
    backupPath item.sessionId now ≠ sessionFilePath item.sessionId ∧
    ∃ front, plan.files = front ++ plan.backups ∧
      StagedFile.mk (sessionFilePath item.sessionId) (ep item.meta raw) ∈ front := by
  obtain ⟨htp, hbk, hfl⟩ := pushToRemote_inv rc ep em rg mfst dev now md lm lh plan hplan
  have hnodup : (plan.toPush.map PushItem.sessionId).Nodup := by
    rw [htp]
    exact selectToPush_sessionIds_nodup md lm (pushManifestBase mfst dev now).entries lh
  have hstep : stepBackups rc rg (pushManifestBase mfst dev now).entries now item
      = [⟨backupPath item.sessionId now, c⟩] := by
    unfold stepBackups
    rw [hread]
    dsimp only
    rw [if_neg hrawne, if_pos ⟨hact, hrm⟩, hget]
    dsimp only
    rw [if_neg hcne]
  have hloop := pushLoop_spec rc ep rg (pushManifestBase mfst dev now).entries dev now
    plan.toPush
    { filesToPush := [], backupFiles := [], entries := (pushManifestBase mfst dev now).entries }
  have hbk2 : plan.backups = plan.toPush.flatMap
      (stepBackups rc rg (pushManifestBase mfst dev now).entries now) := by
    rw [hbk]
    unfold pushLoop
    rw [hloop.1]
    simp
  have hfiles : (pushLoop rc ep rg (pushManifestBase mfst dev now).entries dev now
      plan.toPush (pushManifestBase mfst dev now).entries).filesToPush
      = plan.toPush.flatMap (stepFiles rc ep) := by
    unfold pushLoop
    rw [hloop.2]
    simp
  obtain ⟨hcount, hmemb⟩ := countP_flatMap_backups rc rg
    (pushManifestBase mfst dev now).entries now plan.toPush item c hnodup hmem hstep
  refine ⟨?_, ?_, backupPath_ne_sessionFilePath item.sessionId now, ?_⟩
  · rw [hbk2]; exact hcount
  · rw [hbk2]; exact hmemb
  · refine ⟨(pushLoop rc ep rg (pushManifestBase mfst dev now).entries dev now
      plan.toPush (pushManifestBase mfst dev now).entries).filesToPush
        ++ [⟨"manifest.json", em plan.manifest⟩], ?_, ?_⟩
    · rw [hfl]
    · apply List.mem_append_left
      rw [hfiles]
      rw [List.mem_flatMap]
      refine ⟨item, hmem, ?_⟩
      unfold stepFiles
      rw [hread]
      dsimp only
      rw [if_neg hrawne]
      exact List.mem_singleton_self _

/-- C5 witness: the concrete overwrite scenario stages exactly one backup
holding the old remote content, at a path distinct from the live object. -/
theorem c5_witness :
    cexPlanValue.backups.countP (fun f => f.path == backupPath "s1" 777) = 1 ∧
    StagedFile.mk (backupPath "s1" 777) "OLDCONTENT" ∈ cexPlanValue.backups ∧
    backupPath "s1" 777 ≠ sessionFilePath "s1" := by
  have h := c5_backup_staged (fun _ _ => some "RAW") (fun _ rawContent => "ENC:" ++ rawContent)
    (fun _ => "MANIFESTENC")
    (fun p => if p == sessionFilePath "s1" then some "OLDCONTENT" else none)
    (some cexManifest) "device-1" 777 [cexSessionMeta]
    [("s1", cexLocalSession)] [("s1", "newsha")]
    cexPlanValue cexPushItem "OLDCONTENT" "RAW"
    (by decide) (by decide) rfl (by decide) (by decide) (by decide) rfl (by decide)
  exact ⟨h.1, h.2.1, h.2.2.1⟩

/-- C6: when `batchCommit` fails, writing every staged file individually
via sequential `putFile`, in staging order, leaves the remote contents
exactly as the non-failing batch commit (which carries no deletions) would
have, and in particular the final manifest object holds the newly encrypted
manifest. -/
theorem c6_fallback_matches_batch (rc : String → String → Option String)
    (ep : SessionMetadata → String → String) (em : SyncManifest → String)
    (rg : String → Option String) (mfst : Option SyncManifest) (dev : String) (now : Int)
    (md : List SessionMetadata) (lm : List (String × CopilotSession))
    (lh : List (String × String)) (plan : PushPlan)
    (hplan : pushToRemote rc ep em rg mfst dev now md lm lh = some plan)
    (s : RepoFiles) :
    sequentialPuts s plan.files = batchCommit s plan.files [] ∧
    (sequentialPuts s plan.files).lookup "manifest.json" = some (em plan.manifest) := by
  obtain ⟨htp, hbk, hfl⟩ := pushToRemote_inv rc ep em rg mfst dev now md lm lh plan hplan
  constructor
  · rfl
  · have hloop := pushLoop_spec rc ep rg (pushManifestBase mfst dev now).entries dev now
      plan.toPush
      { filesToPush := [], backupFiles := [], entries := (pushManifestBase mfst dev now).entries }
    have hbk2 : plan.backups = plan.toPush.flatMap
        (stepBackups rc rg (pushManifestBase mfst dev now).entries now) := by
      rw [hbk]
      unfold pushLoop
      rw [hloop.1]
      simp
    have hbkne : ∀ f ∈ plan.backups, f.path ≠ "manifest.json" := by
      intro f hf
      rw [hbk2, List.mem_flatMap] at hf
      obtain ⟨j, hj, hfj⟩ := hf
      rw [stepBackups_shape rc rg (pushManifestBase mfst dev now).entries now j f hfj]
      exact backupPath_ne_manifest j.sessionId now
    rw [hfl]
    have happ : sequentialPuts s
        ((pushLoop rc ep rg (pushManifestBase mfst dev now).entries dev now
            plan.toPush (pushManifestBase mfst dev now).entries).filesToPush
          ++ [⟨"manifest.json", em plan.manifest⟩] ++ plan.backups)
        = sequentialPuts (sequentialPuts s
            ((pushLoop rc ep rg (pushManifestBase mfst dev now).entries dev now
                plan.toPush (pushManifestBase mfst dev now).entries).filesToPush
              ++ [⟨"manifest.json", em plan.manifest⟩])) plan.backups := by
      simp [sequentialPuts, List.foldl_append]
    rw [happ, lookup_sequentialPuts_not_mem "manifest.json" plan.backups hbkne]
    have happ2 : sequentialPuts s
        ((pushLoop rc ep rg (pushManifestBase mfst dev now).entries dev now
            plan.toPush (pushManifestBase mfst dev now).entries).filesToPush
          ++ [⟨"manifest.json", em plan.manifest⟩])
        = RepoFiles.put (sequentialPuts s
            (pushLoop rc ep rg (pushManifestBase mfst dev now).entries dev now
                plan.toPush (pushManifestBase mfst dev now).entries).filesToPush)
            "manifest.json" (em plan.manifest) := by
      simp [sequentialPuts, List.foldl_append, putFile]
    rw [happ2]
    exact lookup_put_self _ "manifest.json" (em plan.manifest)

/-- C6 witness: in the concrete overwrite scenario, sequentially writing
the staged files into an empty repository matches the batch commit and
leaves the encrypted manifest at the manifest path. -/
theorem c6_witness :
    sequentialPuts [] cexPlanValue.files = batchCommit [] cexPlanValue.files [] ∧
    (sequentialPuts [] cexPlanValue.files).lookup "manifest.json"
      = some "MANIFESTENC" := by
  have h := c6_fallback_matches_batch (fun _ _ => some "RAW")
    (fun _ rawContent => "ENC:" ++ rawContent) (fun _ => "MANIFESTENC")
    (fun p => if p == sessionFilePath "s1" then some "OLDCONTENT" else none)
    (some cexManifest) "device-1" 777 [cexSessionMeta]
    [("s1", cexLocalSession)] [("s1", "newsha")]
    cexPlanValue (by decide) []
  exact h
